import Mathlib

/-!
Verification of the Mermaid import/export core described in
`docs-pg/Mermaid解析功能分析与改进建议.md` and of the MCP
`updateEdgeDirection` tool of the project-graph repository.

The analysis document quotes the shipped implementation
(`StageNodeAdder.addNodeMermaidByText`, `stageExportEngine.getMermaidTextByEntites`);
the definitions below embed those quoted fragments.  Pieces of behaviour the
repository snapshot does not show are modelled from the specification and are
marked `Modelled from the spec:` in their doc comments.
-/

/-- The closed set of node shapes (spec §3).  The shipped parser only ever
produces the first six; hexagon, parallelogram and trapezoid are listed as
unsupported in the analysis document (§"节点形状支持不完整"). -/
inductive ShapeKind where
  | rectangle
  | rounded
  | circle
  | rhombus
  | stadium
  | hexagon
  | parallelogram
  | trapezoid
  deriving DecidableEq, Repr

/-- The closed set of edge styles (spec §3).  The shipped classifier only ever
produces `solid` (analysis document §"箭头类型支持不完整"). -/
inductive EdgeStyle where
  | solid
  | dashed
  | thick
  | undirected
  | bidirectional
  deriving DecidableEq, Repr

/-- A parsed node token: identifier, decoded label, shape tag (spec §3). -/
structure NodeToken where
  id : String
  label : String
  shape : ShapeKind
  deriving DecidableEq, Repr

/-- A deferred edge descriptor holding the textual endpoints (spec §3). -/
structure EdgeDescriptor where
  source : String
  target : String
  style : EdgeStyle
  deriving DecidableEq, Repr

/-- Structured non-fatal diagnostics (spec §6). -/
inductive Diagnostic where
  | unterminatedContainer (name : String)
  | closeWithoutOpen
  | unresolvedEdge (source target : String)
  deriving DecidableEq, Repr

/-- Whitespace recognised by trimming (JS `String.trim` on the ASCII range). -/
def isWs (c : Char) : Bool :=
  c = ' ' || c = '\t' || c = '\r' || c = '\n'

/-- Trim whitespace from both ends of a character list. -/
def trimChars (cs : List Char) : List Char :=
  ((cs.dropWhile isWs).reverse.dropWhile isWs).reverse

/-- Trim whitespace from both ends of a string (JS `.trim()`). -/
def strTrim (s : String) : String :=
  String.mk (trimChars s.data)

/-- Function `decodeMermaidText` (StageNodeAdder): HTML-entity unescaping of `&quot;`
and `<br>`-to-newline conversion, per the analysis document §"中文完美支持". -/
def decodeAux : List Char → List Char
  | [] => []
  | '&' :: 'q' :: 'u' :: 'o' :: 't' :: ';' :: rest => '"' :: decodeAux rest
  | '<' :: 'b' :: 'r' :: '>' :: rest => '\n' :: decodeAux rest
  | c :: rest => c :: decodeAux rest

/-- String-level wrapper for `decodeAux`. -/
def decodeMermaidText (s : String) : String :=
  String.mk (decodeAux s.data)

/-- Match one anchored shape pattern of the form
`^([^BAD]+)OPEN(.*)CLOSE$` against a token: the identifier part is the
maximal bad-character-free non-empty first group, followed by the opening
delimiter, an arbitrary greedy label, and the closing delimiter at the very
end.  Returns `(identifier chars, label chars)` on success. -/
def matchShape (openD closeD bad : List Char) (cs : List Char) :
    Option (List Char × List Char) :=
  let pre := cs.takeWhile (fun c => !(bad.contains c))
  let rest := cs.dropWhile (fun c => !(bad.contains c))
  if pre = [] then none
  else if openD.isPrefixOf rest then
    let mid := rest.drop openD.length
    if closeD.isSuffixOf mid then
      some (pre, mid.take (mid.length - closeD.length))
    else none
  else none

/-- Shape-delimiter characters; a token containing one of these that matches
no shape pattern has no parseable identifier. -/
def delimChars : List Char := ['[', ']', '(', ')', '{', '}']

/-- Function `parseNodeToken` (StageNodeAdder 413-743): try the six shape regexes of
the analysis document's table, more specific delimiter pairs first
(`A[(x)]` stadium, `A["x"]` / `A[x]` rectangle, `A((x))` circle, `A(x)`
rounded, `A{x}` rhombus); a plain delimiter-free token is a rectangle node
labelled by itself; a token containing delimiter characters but matching no
pattern yields no identifier (`none`, the `throw` site at line 580). -/
def parseNodeToken (token : String) : Option NodeToken :=
  let cs := token.data
  let mk : ShapeKind → List Char × List Char → NodeToken := fun sh pr =>
    { id := decodeMermaidText (strTrim (String.mk pr.1))
      label := decodeMermaidText (String.mk pr.2)
      shape := sh }
  match matchShape ['[', '('] [')', ']'] ['['] cs with
  | some pr => some (mk .stadium pr)
  | none =>
  match matchShape ['[', '"'] ['"', ']'] ['['] cs with
  | some pr => some (mk .rectangle pr)
  | none =>
  match matchShape ['['] [']'] ['['] cs with
  | some pr => some (mk .rectangle pr)
  | none =>
  match matchShape ['(', '('] [')', ')'] ['('] cs with
  | some pr => some (mk .circle pr)
  | none =>
  match matchShape ['('] [')'] ['('] cs with
  | some pr => some (mk .rounded pr)
  | none =>
  match matchShape ['{'] ['}'] ['{', '}'] cs with
  | some pr => some (mk .rhombus pr)
  | none =>
    if cs.any (fun c => delimChars.contains c) then none
    else
      let t := decodeMermaidText (strTrim token)
      some { id := t, label := t, shape := .rectangle }

/-- First index at which `pat` occurs in `cs` (JS `String.indexOf`). -/
def firstIdx (pat : List Char) : List Char → Option Nat
  | [] => if pat.isPrefixOf [] then some 0 else none
  | c :: rest =>
    if pat.isPrefixOf (c :: rest) then some 0
    else (firstIdx pat rest).map (· + 1)

/-- The `addNodeMermaidByText` edge detection (StageNodeAdder line 663, quoted in
the analysis document §"连线解析逻辑脆弱"): scan for the first occurrence of
the hard-coded `-->`, split the line there, trim both sides.  Only the solid
style is ever produced. -/
def classifyEdgeLine (line : String) : Option EdgeDescriptor :=
  match firstIdx ['-', '-', '>'] line.data with
  | none => none
  | some i =>
    some { source := strTrim (String.mk (line.data.take i))
           target := strTrim (String.mk (line.data.drop (i + 3)))
           style := .solid }

/-- The edge descriptors produced by classifying one line. -/
def edgeDescsOfLine (line : String) : List EdgeDescriptor :=
  match classifyEdgeLine line with
  | none => []
  | some d => [d]

/-- The `getMermaidTextByEntites` node emission (stageExportEngine line 248,
quoted in the analysis document §"导出功能问题"): every node is emitted with
hard-coded square brackets, `id["text"]`, regardless of its shape. -/
def emitNodeLine (id text : String) : String :=
  id ++ "[\"" ++ text ++ "\"]"

/-- The `getMermaidTextByEntites` base-identifier rule (stageExportEngine,
quoted in the analysis document §"核心算法"): use the trimmed node text; if
empty synthesise from the uuid; if digit-leading prepend an underscore. -/
def makeBaseId (text uuid : String) : String :=
  let b := strTrim text
  if b = "" then "node_" ++ String.mk (uuid.data.take 8)
  else if (b.data.headD ' ').isDigit then "_" ++ b
  else b

/-- Decimal digit character for `d < 10`. -/
def digitChar (d : Nat) : Char :=
  Char.ofNat (48 + d)

/-- Decimal rendering of a natural number, fuel-based. -/
def natStrAux : Nat → Nat → List Char
  | 0, _ => []
  | fuel + 1, n =>
    if n < 10 then [digitChar n]
    else natStrAux fuel (n / 10) ++ [digitChar (n % 10)]

/-- Decimal rendering of a natural number. -/
def natStr (n : Nat) : String :=
  String.mk (natStrAux (n + 1) n)

/-- The k-th collision-avoidance candidate for a base identifier. -/
def candidate (base : String) (k : Nat) : String :=
  base ++ "_" ++ natStr k

/-- Modelled from the spec: the collision loop of identifier re-synthesis
(spec §4.5 step 2; the analysis document records only "重复 ID 自动重命名
(添加数字后缀)" — duplicate ids are renamed by appending a numeric suffix —
without showing the loop).  Try `base_2`, `base_3`, … until the identifier
table has no collision; the fuel is always sufficient. -/
def freshAux (used : List String) (base : String) : Nat → Nat → String
  | 0, k => candidate base k
  | fuel + 1, k =>
    if candidate base k ∈ used then freshAux used base fuel (k + 1)
    else candidate base k

/-- Collision-free identifier for `base` relative to the ids `used` so far. -/
def fresh (used : List String) (base : String) : String :=
  if base ∈ used then freshAux used base used.length 2 else base

/-- Export-pass identifier synthesis over `(text, uuid)` nodes in order,
threading the per-pass identifier table. -/
def exportIdsAux (used : List String) : List (String × String) → List String
  | [] => []
  | (text, uuid) :: rest =>
    let id := fresh used (makeBaseId text uuid)
    id :: exportIdsAux (id :: used) rest

/-- The identifiers synthesised for one export pass (spec §4.5 step 2). -/
def exportIds (nodes : List (String × String)) : List String :=
  exportIdsAux [] nodes

/-- Serialize a single selected node: synthesise its identifier from the
label and emit the node line.  The shape argument is ignored by the shipped
emitter (hard-coded brackets). -/
def serializeSingle (_shape : ShapeKind) (label uuid : String) : String :=
  emitNodeLine (fresh [] (makeBaseId label uuid)) label

/-- Whether `pat` is a leading substring of `s` at the string level. -/
def strStartsWith (s pat : String) : Bool :=
  pat.data.isPrefixOf s.data

/-- Lower-case a string (ASCII). -/
def strToLower (s : String) : String :=
  String.mk (s.data.map Char.toLower)

/-- Split a string into lines at newline characters. -/
def splitLinesAux : List Char → List Char → List (List Char)
  | [], acc => [acc.reverse]
  | c :: rest, acc =>
    if c = '\n' then acc.reverse :: splitLinesAux rest []
    else splitLinesAux rest (c :: acc)

/-- Split a string into its lines. -/
def splitLines (s : String) : List String :=
  (splitLinesAux s.data []).map String.mk

/-- The Lexical Normalizer (spec §4.1; analysis document §"鲁棒性设计"):
trim each line, drop blank lines, `%%` comments and the
`style `/`linkStyle `/`classDef ` directive lines (case-insensitive). -/
def normalizeLines (text : String) : List String :=
  ((splitLines text).map strTrim).filter fun l =>
    !(l = "") && !(strStartsWith l "%%") &&
    !(strStartsWith (strToLower l) "style ") &&
    !(strStartsWith (strToLower l) "linkstyle ") &&
    !(strStartsWith (strToLower l) "classdef ")

/-- One classified line of the import pass (spec §4.2). -/
inductive LineEvent where
  | direction
  | openC (name : String)
  | close
  | edge (d : EdgeDescriptor)
  | node (t : NodeToken)
  deriving DecidableEq, Repr

/-- The Token Classifier for one normalized line, in the priority order of
the parse flow of the analysis document (`graph`/`flowchart` header skipped,
`subgraph` opens a Section, `end` closes it, a `-->` line is an edge,
anything else is a node declaration).  An unparseable node token is the
`throw new Error("无法解析节点标识: ...")` of StageNodeAdder line 580,
embedded as `Except.error`. -/
def classifyLine (line : String) : Except String LineEvent :=
  if strStartsWith line "graph" || strStartsWith line "flowchart" then
    .ok .direction
  else if strStartsWith line "subgraph" then
    .ok (.openC (strTrim (String.mk (line.data.drop 8))))
  else if line = "end" then
    .ok .close
  else
    match classifyEdgeLine line with
    | some d => .ok (.edge d)
    | none =>
      match parseNodeToken line with
      | some t => .ok (.node t)
      | none => .error ("无法解析节点标识: " ++ line)

/-- Classify every line in order; the first error aborts the whole pass,
exactly as the uncaught `throw` does in the shipped loop. -/
def classifyLines : List String → Except String (List LineEvent)
  | [] => .ok []
  | l :: rest =>
    match classifyLine l with
    | .error e => .error e
    | .ok ev =>
      match classifyLines rest with
      | .error e => .error e
      | .ok evs => .ok (ev :: evs)

/-- The Graph Builder state: Container Stack, created node entities,
created Section names, deferred edge descriptors, diagnostics. -/
structure BuildState where
  stack : List String
  entities : List NodeToken
  sections : List String
  descs : List EdgeDescriptor
  diags : List Diagnostic
  deriving DecidableEq, Repr

/-- The empty builder state. -/
def initState : BuildState :=
  { stack := [], entities := [], sections := [], descs := [], diags := [] }

/-- Idempotent node re-declaration (spec §3 Identifier Table invariant): a
duplicate declaration updates the label of the existing entity. -/
def upsert : List NodeToken → NodeToken → List NodeToken
  | [], t => [t]
  | u :: rest, t =>
    if u.id = t.id then { u with label := t.label, shape := t.shape } :: rest
    else u :: upsert rest t

/-- One Graph Builder step (spec §4.3; parse flow of the analysis document):
direction events are skipped, `subgraph` pushes a Section, `end` pops it,
edges are deferred, node declarations upsert an entity. -/
def applyEvent (st : BuildState) : LineEvent → BuildState
  | .direction => st
  | .openC name =>
    { st with stack := name :: st.stack, sections := st.sections ++ [name] }
  | .close =>
    match st.stack with
    | [] => { st with diags := st.diags ++ [.closeWithoutOpen] }
    | _ :: rest => { st with stack := rest }
  | .edge d => { st with descs := st.descs ++ [d] }
  | .node t => { st with entities := upsert st.entities t }

/-- Run the Graph Builder over the classified events of one pass. -/
def buildEvents (events : List LineEvent) : BuildState :=
  events.foldl applyEvent initState

/-- Modelled from the spec: end-of-pass handling of a non-empty Container
Stack (spec §4.3 / §7(b); not shown in the repository snapshot) — each still
open container is auto-closed and reported with one `unterminatedContainer`
diagnostic. -/
def finishPass (st : BuildState) : BuildState :=
  { st with stack := [],
            diags := st.diags ++ st.stack.map (fun s => .unterminatedContainer s) }

/-- The import pass: normalize, classify every line (an unparseable token
aborts the pass with the thrown error), build, finish. -/
def importMermaid (text : String) : Except String BuildState :=
  match classifyLines (normalizeLines text) with
  | .error e => .error e
  | .ok events => .ok (finishPass (buildEvents events))

/-- Number of container-open events. -/
def opensCount (events : List LineEvent) : Nat :=
  events.countP fun e => match e with | .openC _ => true | _ => false

/-- Number of container-close events. -/
def closesCount (events : List LineEvent) : Nat :=
  events.countP fun e => match e with | .close => true | _ => false

/-- Number of unterminated-container diagnostics. -/
def countUnterminated (ds : List Diagnostic) : Nat :=
  ds.countP fun d => match d with | .unterminatedContainer _ => true | _ => false

/-- Valid interleaving of opens and closes starting from stack depth `n`:
no close ever meets an empty stack. -/
def validFromB (n : Nat) : List LineEvent → Bool
  | [] => true
  | .close :: rest => decide (0 < n) && validFromB (n - 1) rest
  | .openC _ :: rest => validFromB (n + 1) rest
  | _ :: rest => validFromB n rest

/-- Layout direction hint (spec §4.2.1). -/
inductive MermaidDirection where
  | TD
  | LR
  deriving DecidableEq, Repr

/-- Smallest `c` at least `start` with `n ≤ c * c`, fuel-based search. -/
def ceilSqrtAux (n : Nat) : Nat → Nat → Nat
  | 0, c => c
  | fuel + 1, c => if n ≤ c * c then c else ceilSqrtAux n fuel (c + 1)

/-- Ceiling of the square root, `Math.ceil(Math.sqrt(n))` on naturals:
the least `c` with `n ≤ c * c`. -/
def ceilSqrt (n : Nat) : Nat :=
  ceilSqrtAux n n 0

/-- The Layout Engine actually shipped (StageNodeAdder, quoted in the
analysis document §"布局算法简陋"): a plain grid —
`columns = Math.max(1, Math.ceil(Math.sqrt(entities.length)))` and
`target = origin.add(new Vector(col * spacing.x, row * spacing.y))` — which
ignores the resolved edges and the direction hint entirely.  The `i`-th
created entity, in declaration order, is placed in row `i / columns`,
column `i % columns`. -/
def layoutMermaid (n : Nat) (_edges : List (Nat × Nat)) (_dir : MermaidDirection)
    (origin spacing : Int × Int) : List (Int × Int) :=
  let columns := Nat.max 1 (ceilSqrt n)
  (List.range n).map fun i =>
    (origin.1 + (i % columns : Nat) * spacing.1,
     origin.2 + (i / columns : Nat) * spacing.2)

/-- One round of Kahn-style peeling: keep exactly the vertices that still
have an incoming edge from a surviving vertex. -/
def peelStep (edges : List (Nat × Nat)) (alive : List Nat) : List Nat :=
  alive.filter fun v => edges.any fun e => e.2 = v && alive.contains e.1

/-- Iterated peeling with fuel. -/
def peelIter (edges : List (Nat × Nat)) : Nat → List Nat → List Nat
  | 0, alive => alive
  | k + 1, alive => peelIter edges k (peelStep edges alive)

/-- Modelled from the spec: "peeling terminates with entities still having
positive in-degree" (spec §4.4 step 4) — the induced graph on `n` vertices
has a cycle iff `n` rounds of peeling leave a non-empty residue.  The
shipped code contains no such detection; this predicate only expresses, in
the claims, which inputs "form a cycle". -/
def hasCycle (n : Nat) (edges : List (Nat × Nat)) : Bool :=
  !(peelIter edges n (List.range n)).isEmpty

/-- Modelled from the spec: the identifier table visible to end-of-pass edge
resolution (spec §4.3, §8) — node identifiers declared during the pass
together with the source endpoint of every edge statement, which the pass
materializes as a node (spec §8: in `A --> Z` with `Z` undeclared, `A` is
still created). -/
def specEdgeTable (decls : List String) (descs : List EdgeDescriptor) :
    List String :=
  decls ++ descs.map (·.source)

/-- Modelled from the spec: end-of-pass deferred-edge resolution
(spec §3/§4.3) — an edge is realized only if both endpoints resolve in the
table; an unresolved edge is dropped and reported with one diagnostic,
never silently. -/
def specResolveEdges (table : List String) :
    List EdgeDescriptor → List EdgeDescriptor × List Diagnostic
  | [] => ([], [])
  | d :: rest =>
    let (es, ds) := specResolveEdges table rest
    if d.source ∈ table ∧ d.target ∈ table then (d :: es, ds)
    else (es, .unresolvedEdge d.source d.target :: ds)

/-- Modelled from the spec: the edge phase of one import pass — build the
identifier table, then resolve every deferred descriptor against it. -/
def specImportEdges (decls : List String) (descs : List EdgeDescriptor) :
    List EdgeDescriptor × List Diagnostic :=
  specResolveEdges (specEdgeTable decls descs) descs

/-- The fields of an `Edge` touched or read by the MCP
`updateEdgeDirection` tool (MCPServer, both variants): the two
rectangle-rate vectors plus the identity/endpoint/label fields it must
leave alone. -/
structure EdgeModel where
  uuid : String
  sourceUuid : String
  targetUuid : String
  text : String
  sourceRectangleRate : Rat × Rat
  targetRectangleRate : Rat × Rat
  deriving DecidableEq, Repr

/-- Tool `updateEdgeDirection` (MCPServer `callTool`): assign
`edge.sourceRectangleRate = new Vector(sourceRateX, sourceRateY)` only when
both `sourceRateX !== undefined && sourceRateY !== undefined`, and likewise
for the target pair; nothing else on the edge is written. -/
def updateEdgeDirection (e : EdgeModel)
    (sourceRateX sourceRateY targetRateX targetRateY : Option Rat) :
    EdgeModel :=
  let e1 :=
    match sourceRateX, sourceRateY with
    | some x, some y => { e with sourceRectangleRate := (x, y) }
    | _, _ => e
  match targetRateX, targetRateY with
  | some x, some y => { e1 with targetRectangleRate := (x, y) }
  | _, _ => e1

/-- Characters that would interfere with the shape grammar, the quoting, or
the entity decoding when they occur in a label. -/
def specialChars : List Char :=
  ['[', ']', '(', ')', '{', '}', '"', '&', '<', '>', '%', '|',
   ' ', '\t', '\r', '\n']

/-- A plain label: non-empty, already trimmed, free of grammar-significant
characters, and not digit-leading (so the synthesised identifier is the
label itself).  This is the "modulo whitespace normalization" proviso of the
round-trip property, made explicit. -/
def plainLabel (l : String) : Prop :=
  strTrim l = l ∧ l ≠ "" ∧ (∀ c ∈ l.data, ¬ c ∈ specialChars) ∧
  ((l.data.headD ' ').isDigit = false)

instance (l : String) : Decidable (plainLabel l) := by
  unfold plainLabel
  infer_instance

/-- The y-coordinate assigned to the `i`-th entity by a layout result. -/
def layoutY (ps : List (Int × Int)) (i : Nat) : Int :=
  ((ps.get? i).getD (0, 0)).2

/-- The column count of the shipped grid layout. -/
def gridCols (n : Nat) : Nat :=
  Nat.max 1 (ceilSqrt n)

/-- Decimal value of a digit string (left fold), inverse of `natStrAux`. -/
def digitsVal (cs : List Char) : Nat :=
  cs.foldl (fun a c => a * 10 + (c.toNat - 48)) 0

/-- Whether an `Except` result is a success. -/
def exceptIsOk {α : Type} (x : Except String α) : Bool :=
  match x with
  | .ok _ => true
  | .error _ => false

lemma strMk_data (s : String) : String.mk s.data = s := by
  cases s
  rfl

lemma data_ne_nil {s : String} (h : s ≠ "") : s.data ≠ [] := by
  intro hd
  apply h
  have h2 : s = String.mk s.data := (strMk_data s).symm
  rw [h2, hd]

lemma takeWhile_append_all {α : Type} {p : α → Bool} {xs ys : List α}
    (h : ∀ x ∈ xs, p x = true) :
    (xs ++ ys).takeWhile p = xs ++ ys.takeWhile p := by
  induction xs with
  | nil => simp
  | cons a as ih =>
    have ha := h a (by simp)
    have ih2 := ih (fun x hx => h x (by simp [hx]))
    simp [List.takeWhile_cons, ha, ih2]

lemma dropWhile_append_all {α : Type} {p : α → Bool} {xs ys : List α}
    (h : ∀ x ∈ xs, p x = true) :
    (xs ++ ys).dropWhile p = ys.dropWhile p := by
  induction xs with
  | nil => simp
  | cons a as ih =>
    have ha := h a (by simp)
    simp only [List.cons_append, List.dropWhile_cons, ha, if_true]
    exact ih (fun x hx => h x (by simp [hx]))

lemma decodeAux_id {cs : List Char} (h : ∀ c ∈ cs, c ≠ '&' ∧ c ≠ '<') :
    decodeAux cs = cs := by
  induction cs using decodeAux.induct with
  | case1 => rfl
  | case2 rest ih => exact absurd rfl (h '&' (by simp)).1
  | case3 rest ih => exact absurd rfl (h '<' (by simp)).2
  | case4 c rest h1 h2 ih =>
    rw [decodeAux]
    · rw [ih (fun x hx => h x (List.mem_cons_of_mem c hx))]
    · exact h1
    · exact h2

lemma fresh_nil (b : String) : fresh [] b = b := by
  simp [fresh]

lemma makeBaseId_plain (l u : String) (h : plainLabel l) : makeBaseId l u = l := by
  obtain ⟨htrim, hne, _, hdig⟩ := h
  unfold makeBaseId
  dsimp only
  rw [htrim, if_neg hne]
  have hdig2 : (l.data.head?.getD ' ').isDigit = false := by simpa using hdig
  simp [hdig2]

theorem parse_emit (l : String) (h : plainLabel l) :
    parseNodeToken (emitNodeLine l l) = some ⟨l, l, ShapeKind.rectangle⟩ := by
  obtain ⟨htrim, hne, hmem, hdig⟩ := h
  have hL : l.data ≠ [] := data_ne_nil hne
  have hdata : (emitNodeLine l l).data = l.data ++ '[' :: '"' :: (l.data ++ ['"', ']']) := by
    simp [emitNodeLine]
  have hamp : ∀ c ∈ l.data, c ≠ '&' ∧ c ≠ '<' := by
    intro c hc
    constructor
    · intro e; exact hmem c hc (by rw [e]; decide)
    · intro e; exact hmem c hc (by rw [e]; decide)
  have hdec : decodeAux l.data = l.data := decodeAux_id hamp
  have hno_lb : ∀ c ∈ l.data, (fun c => !(['['] : List Char).contains c) c = true := by
    intro c hc
    have : ¬ c ∈ (['['] : List Char) := by
      intro hcb
      have e : c = '[' := by simpa using hcb
      exact hmem c hc (by rw [e]; decide)
    simpa [List.contains] using this
  have hpf : ((fun c => !(['['] : List Char).contains c) '[') = false := by decide
  have htake : (l.data ++ '[' :: '"' :: (l.data ++ ['"', ']'])).takeWhile
      (fun c => !(['['] : List Char).contains c) = l.data := by
    rw [takeWhile_append_all hno_lb]
    simp [List.takeWhile_cons, hpf]
  have hdrop : (l.data ++ '[' :: '"' :: (l.data ++ ['"', ']'])).dropWhile
      (fun c => !(['['] : List Char).contains c) = '[' :: '"' :: (l.data ++ ['"', ']']) := by
    rw [dropWhile_append_all hno_lb]
    simp [List.dropWhile_cons, hpf]
  have hstad : matchShape ['[', '('] [')', ']'] ['['] (emitNodeLine l l).data = none := by
    rw [hdata]
    unfold matchShape
    simp only [htake, hdrop]
    rw [if_neg hL]
    have : (['[', '('] : List Char).isPrefixOf ('[' :: '"' :: (l.data ++ ['"', ']'])) = false := by
      simp [List.isPrefixOf]
    simp [this]
  have hquoted : matchShape ['[', '"'] ['"', ']'] ['['] (emitNodeLine l l).data =
      some (l.data, l.data) := by
    rw [hdata]
    unfold matchShape
    simp only [htake, hdrop]
    rw [if_neg hL]
    have hpre : (['[', '"'] : List Char).isPrefixOf ('[' :: '"' :: (l.data ++ ['"', ']'])) = true := by
      simp [List.isPrefixOf]
    have hsuf : (['"', ']'] : List Char).isSuffixOf
        (('[' :: '"' :: (l.data ++ ['"', ']'])).drop 2) = true := by
      simp [List.isSuffixOf, List.isPrefixOf, List.reverse_append]
    rw [if_pos hpre]
    have hdrop2 : ('[' :: '"' :: (l.data ++ ['"', ']'])).drop
        (['[', '"'] : List Char).length = l.data ++ ['"', ']'] := rfl
    rw [hdrop2]
    have hsuf2 : (['"', ']'] : List Char).isSuffixOf (l.data ++ ['"', ']']) = true := by
      simp [List.isSuffixOf, List.isPrefixOf, List.reverse_append]
    rw [if_pos hsuf2]
    have htk : (l.data ++ ['"', ']']).take
        ((l.data ++ ['"', ']']).length - (['"', ']'] : List Char).length) = l.data := by
      have h2 : (l.data ++ ['"', ']']).length - (['"', ']'] : List Char).length
          = l.data.length := by
        simp [List.length_append]
      rw [h2]
      exact List.take_left _ _
    rw [htk]
  unfold parseNodeToken
  dsimp only
  rw [hstad, hquoted]
  show some _ = some _
  have hid : decodeMermaidText (strTrim (String.mk l.data)) = l := by
    rw [strMk_data, htrim]
    unfold decodeMermaidText
    rw [hdec, strMk_data]
  have hlb : decodeMermaidText (String.mk l.data) = l := by
    rw [strMk_data]
    unfold decodeMermaidText
    rw [hdec, strMk_data]
  rw [hid, hlb]

/-- C1, counterexample: serializing a hexagon node and classifying the
emitted line yields a rectangle, not a hexagon — the emitter hard-codes
square brackets, so the round trip does not reproduce the shape for all
seven shapes. -/
theorem c1_hexagon_roundtrip_fails :
    (parseNodeToken (serializeSingle ShapeKind.hexagon "x" "u")).map NodeToken.shape
      = some ShapeKind.rectangle ∧
    ¬((parseNodeToken (serializeSingle ShapeKind.hexagon "x" "u")).map NodeToken.shape
      = some ShapeKind.hexagon) := by
  decide

/-- C1 (amended): for every shape and every plain label, serializing the
node and classifying the emitted line reproduces the label and the
identifier, but always with shape `rectangle`: only the rectangle shape
round-trips; every other shape collapses to it. -/
theorem c1_roundtrip_label_only (sh : ShapeKind) (l uuid : String)
    (h : plainLabel l) :
    parseNodeToken (serializeSingle sh l uuid) = some ⟨l, l, ShapeKind.rectangle⟩ := by
  unfold serializeSingle
  rw [makeBaseId_plain l uuid h, fresh_nil]
  exact parse_emit l h

/-- Witness for C1 (amended) at shape `hexagon`, label `"ok"`. -/
theorem c1_roundtrip_label_only_witness :
    plainLabel "ok" ∧
    parseNodeToken (serializeSingle ShapeKind.hexagon "ok" "u")
      = some ⟨"ok", "ok", ShapeKind.rectangle⟩ :=
  ⟨by decide, c1_roundtrip_label_only ShapeKind.hexagon "ok" "u" (by decide)⟩

/-- C2, counterexample: the line `A -.-> B` is not classified as an edge at
all — `indexOf("-->")` finds nothing in it — contradicting the claim that
it is classified as a dashed edge. -/
theorem c2_dashed_line_not_an_edge :
    classifyEdgeLine "A -.-> B" = none ∧
    ¬((classifyEdgeLine "A -.-> B").map EdgeDescriptor.style
      = some EdgeStyle.dashed) := by
  decide

/-- C2 (amended): the classifier recognizes only the solid operator `-->`
by scanning for its first occurrence; every edge it ever produces is solid;
lines whose operator is `-.->`, `==>` or `---` are not edges at all, and
`<-->` is misread as a solid edge with a stray `<` on the source. -/
theorem c2_only_solid_recognized :
    (∀ line, (classifyEdgeLine line).map EdgeDescriptor.style = none ∨
      (classifyEdgeLine line).map EdgeDescriptor.style = some EdgeStyle.solid) ∧
    classifyEdgeLine "A ==> B" = none ∧
    classifyEdgeLine "A --- B" = none ∧
    classifyEdgeLine "A <--> B"
      = some { source := "A <", target := "B", style := EdgeStyle.solid } := by
  refine ⟨?_, by decide, by decide, by decide⟩
  intro line
  cases h : firstIdx ['-', '-', '>'] line.data with
  | none => left; simp [classifyEdgeLine, h]
  | some i => right; simp [classifyEdgeLine, h]

/-- C3, counterexample: on the edges `A-->B, A-->C, B-->D, C-->D` with
direction `TD` the shipped layout does not produce the claimed layering —
`A` and `B` receive the same primary-axis coordinate, so `{A}` is not alone
at layer 0. -/
theorem c3_layering_fails :
    ¬(layoutY (layoutMermaid 4 [(0,1),(0,2),(1,3),(2,3)] .TD (0,0) (260,200)) 0 <
        layoutY (layoutMermaid 4 [(0,1),(0,2),(1,3),(2,3)] .TD (0,0) (260,200)) 1 ∧
      layoutY (layoutMermaid 4 [(0,1),(0,2),(1,3),(2,3)] .TD (0,0) (260,200)) 1 =
        layoutY (layoutMermaid 4 [(0,1),(0,2),(1,3),(2,3)] .TD (0,0) (260,200)) 2 ∧
      layoutY (layoutMermaid 4 [(0,1),(0,2),(1,3),(2,3)] .TD (0,0) (260,200)) 2 <
        layoutY (layoutMermaid 4 [(0,1),(0,2),(1,3),(2,3)] .TD (0,0) (260,200)) 3) := by
  decide

/-- C3 (amended): the shipped layout ignores the edges and the direction
hint: the four nodes of the example are placed in declaration order on a
`ceil(sqrt(4)) = 2`-column grid, and the direction hint does not change the
result.  Determinism holds: the layout is a pure function of its input, so
rerunning the identical input yields identical coordinates. -/
theorem c3_grid_not_layered :
    layoutMermaid 4 [(0,1),(0,2),(1,3),(2,3)] .TD (0,0) (260,200)
      = [(0,0), (260,0), (0,200), (260,200)] ∧
    layoutMermaid 4 [(0,1),(0,2),(1,3),(2,3)] .LR (0,0) (260,200)
      = layoutMermaid 4 [(0,1),(0,2),(1,3),(2,3)] .TD (0,0) (260,200) := by
  decide

/-- C8, counterexample: `A --> B & C` is not expanded — the classifier
produces a single EdgeDescriptor whose target is the literal text `B & C`,
not the two claimed descriptors `A->B` and `A->C`. -/
theorem c8_fanout_fails :
    edgeDescsOfLine "A --> B & C"
      = [{ source := "A", target := "B & C", style := EdgeStyle.solid }] ∧
    edgeDescsOfLine "A --> B & C"
      ≠ [{ source := "A", target := "B", style := EdgeStyle.solid },
         { source := "A", target := "C", style := EdgeStyle.solid }] := by
  decide

/-- C8 (amended): the split at the first `-->` produces exactly one
EdgeDescriptor per edge line — `A --> B & C` yields the single descriptor
with target `"B & C"`, and no line ever yields more than one descriptor. -/
theorem c8_single_descriptor_per_line :
    edgeDescsOfLine "A --> B & C"
      = [{ source := "A", target := "B & C", style := EdgeStyle.solid }] ∧
    ∀ line, (edgeDescsOfLine line).length ≤ 1 := by
  refine ⟨by decide, ?_⟩
  intro line
  unfold edgeDescsOfLine
  cases classifyEdgeLine line <;> simp

/-- C10: `updateEdgeDirection` writes a rectangle-rate vector only when both
of its rate arguments are supplied — if either is missing that endpoint's
rate is unchanged — and never writes any other field of the edge. -/
theorem c10_updateEdgeDirection_frame (e : EdgeModel)
    (sx sy tx ty : Option Rat) :
    ((sx = none ∨ sy = none) →
      (updateEdgeDirection e sx sy tx ty).sourceRectangleRate
        = e.sourceRectangleRate) ∧
    ((tx = none ∨ ty = none) →
      (updateEdgeDirection e sx sy tx ty).targetRectangleRate
        = e.targetRectangleRate) ∧
    (∀ a b, sx = some a → sy = some b →
      (updateEdgeDirection e sx sy tx ty).sourceRectangleRate = (a, b)) ∧
    (∀ a b, tx = some a → ty = some b →
      (updateEdgeDirection e sx sy tx ty).targetRectangleRate = (a, b)) ∧
    (updateEdgeDirection e sx sy tx ty).uuid = e.uuid ∧
    (updateEdgeDirection e sx sy tx ty).sourceUuid = e.sourceUuid ∧
    (updateEdgeDirection e sx sy tx ty).targetUuid = e.targetUuid ∧
    (updateEdgeDirection e sx sy tx ty).text = e.text := by
  cases sx <;> cases sy <;> cases tx <;> cases ty <;>
    simp [updateEdgeDirection]

/-- Witness for C10: supplying only `sourceRateX` leaves the source rate
unchanged. -/
theorem c10_updateEdgeDirection_frame_witness :
    (updateEdgeDirection
      { uuid := "e", sourceUuid := "s", targetUuid := "t", text := "lbl",
        sourceRectangleRate := (0, 0), targetRectangleRate := (1, 1) }
      (some (1/2)) none (some 1) (some 1)).sourceRectangleRate = (0, 0) :=
  (c10_updateEdgeDirection_frame
      { uuid := "e", sourceUuid := "s", targetUuid := "t", text := "lbl",
        sourceRectangleRate := (0, 0), targetRectangleRate := (1, 1) }
      (some (1/2)) none (some 1) (some 1)).1 (Or.inr rfl)

lemma ceilSqrtAux_le_sq (n : Nat) :
    ∀ fuel c, n ≤ (c + fuel) * (c + fuel) →
      n ≤ ceilSqrtAux n fuel c * ceilSqrtAux n fuel c := by
  intro fuel
  induction fuel with
  | zero => intro c h; simpa [ceilSqrtAux] using h
  | succ f ih =>
    intro c h
    unfold ceilSqrtAux
    by_cases hc : n ≤ c * c
    · simpa [hc]
    · simp only [hc, if_false]
      refine ih (c + 1) ?_
      have e : c + 1 + f = c + (f + 1) := by omega
      rw [e]
      exact h

lemma ceilSqrtAux_min (n : Nat) :
    ∀ fuel c, (∀ j, j < c → j * j < n) →
      ∀ j, j < ceilSqrtAux n fuel c → j * j < n := by
  intro fuel
  induction fuel with
  | zero => intro c h; simpa [ceilSqrtAux] using h
  | succ f ih =>
    intro c h
    unfold ceilSqrtAux
    by_cases hc : n ≤ c * c
    · simpa [hc] using h
    · simp only [hc, if_false]
      refine ih (c + 1) ?_
      intro j hj
      rcases Nat.lt_succ_iff_lt_or_eq.mp hj with h1 | h1
      · exact h j h1
      · subst h1; omega

lemma ceilSqrt_le_sq (n : Nat) : n ≤ ceilSqrt n * ceilSqrt n := by
  refine ceilSqrtAux_le_sq n n 0 ?_
  rcases Nat.eq_zero_or_pos n with h | h
  · simp [h]
  · simpa using Nat.le_mul_of_pos_left n h

lemma ceilSqrt_min (n : Nat) : ∀ j, j < ceilSqrt n → j * j < n :=
  ceilSqrtAux_min n n 0 (fun j hj => absurd hj (Nat.not_lt_zero j))

lemma ceilSqrt_pos {n : Nat} (h : 0 < n) : 0 < ceilSqrt n := by
  by_contra hc
  have h0 : ceilSqrt n = 0 := by omega
  have := ceilSqrt_le_sq n
  rw [h0] at this
  omega

lemma peelIter_subset (edges : List (Nat × Nat)) :
    ∀ k alive, peelIter edges k alive ⊆ alive := by
  intro k
  induction k with
  | zero => intro alive; simp [peelIter]
  | succ m ih =>
    intro alive
    unfold peelIter
    exact (ih (peelStep edges alive)).trans (fun x hx => List.mem_of_mem_filter hx)

lemma hasCycle_pos {n : Nat} {edges : List (Nat × Nat)}
    (h : hasCycle n edges = true) : 0 < n := by
  unfold hasCycle at h
  have hne : peelIter edges n (List.range n) ≠ [] := by
    intro e
    rw [e] at h
    simp at h
  obtain ⟨x, hx⟩ := List.exists_mem_of_ne_nil _ hne
  have := peelIter_subset edges n (List.range n) hx
  have := List.mem_range.mp this
  omega

/-- C4: on any input whose resolved edges form a cycle (Kahn peeling leaves
a non-empty residue), the shipped layout terminates (it is a total
function) and places the whole batch on the deterministic grid: the i-th
entity in declaration order sits at column `i % c`, row `i / c` with
`c = max 1 ⌈√n⌉`, and `c` really is the ceiling square root
(`n ≤ c²` with `(c−1)² < n`). -/
theorem c4_cycle_grid_fallback (n : Nat) (edges : List (Nat × Nat))
    (dir : MermaidDirection) (origin spacing : Int × Int)
    (h : hasCycle n edges = true) :
    (layoutMermaid n edges dir origin spacing).length = n ∧
    (∀ i, i < n → (layoutMermaid n edges dir origin spacing).get? i
        = some (origin.1 + ((i % gridCols n : Nat) : Int) * spacing.1,
                origin.2 + ((i / gridCols n : Nat) : Int) * spacing.2)) ∧
    n ≤ gridCols n * gridCols n ∧
    (gridCols n - 1) * (gridCols n - 1) < n := by
  have hn : 0 < n := hasCycle_pos h
  have hpos : 0 < ceilSqrt n := ceilSqrt_pos hn
  have hmax : gridCols n = ceilSqrt n := by
    unfold gridCols
    exact Nat.max_eq_right hpos
  refine ⟨?_, ?_, ?_, ?_⟩
  · simp [layoutMermaid]
  · intro i hi
    unfold layoutMermaid
    dsimp only
    rw [List.get?_map, List.get?_range hi]
    rfl
  · rw [hmax]
    exact ceilSqrt_le_sq n
  · rw [hmax]
    exact ceilSqrt_min n (ceilSqrt n - 1) (by omega)

/-- Witness for C4: the 2-cycle `A-->B, B-->A` is detected as cyclic and
entity 1 is placed at grid cell (column 1, row 0). -/
theorem c4_cycle_grid_fallback_witness :
    hasCycle 2 [(0,1),(1,0)] = true ∧
    (layoutMermaid 2 [(0,1),(1,0)] MermaidDirection.TD (0,0) (260,200)).get? 1
      = some (260, 0) := by
  have h := c4_cycle_grid_fallback 2 [(0,1),(1,0)] MermaidDirection.TD
    (0,0) (260,200) (by decide)
  exact ⟨by decide, (h.2.1 1 (by decide)).trans (by decide)⟩

lemma specResolveEdges_spec (table : List String) :
    ∀ descs, (specResolveEdges table descs).1
        = descs.filter (fun d => decide (d.source ∈ table ∧ d.target ∈ table)) ∧
      (specResolveEdges table descs).2
        = (descs.filter
            (fun d => !decide (d.source ∈ table ∧ d.target ∈ table))).map
            (fun d => Diagnostic.unresolvedEdge d.source d.target) := by
  intro descs
  induction descs with
  | nil => simp [specResolveEdges]
  | cons d rest ih =>
    by_cases hd : d.source ∈ table ∧ d.target ∈ table
    · simp [specResolveEdges, hd, List.filter_cons, ih.1, ih.2]
    · have hd2 : d.source ∉ table ∨ d.target ∉ table := by tauto
      simp [specResolveEdges, hd, List.filter_cons, ih.1, ih.2, hd2]

lemma filter_length_partition {α : Type} (p : α → Bool) (l : List α) :
    (l.filter p).length + (l.filter (fun a => !p a)).length = l.length := by
  induction l with
  | nil => simp
  | cons a rest ih =>
    by_cases ha : p a = true
    · simp [List.filter_cons, ha, Nat.succ_add, ih]
    · have ha2 : p a = false := by
        cases h : p a
        · rfl
        · exact absurd h ha
      simp [List.filter_cons, ha2, ih]
      omega

/-- C6: an EdgeDescriptor is realized only if both endpoints resolve in the
identifier table of the pass; every unresolved descriptor is dropped and
reported with exactly one diagnostic (realized + diagnostics counts
partition the descriptors); and the source endpoint of every edge statement
is always created as a node, so in `A --> Z` with `Z` undeclared the edge
is dropped with one diagnostic while `A` exists. -/
theorem c6_dangling_edges_dropped (decls : List String)
    (descs : List EdgeDescriptor) :
    (specImportEdges decls descs).1
      = descs.filter (fun d => decide (d.source ∈ specEdgeTable decls descs ∧
          d.target ∈ specEdgeTable decls descs)) ∧
    (specImportEdges decls descs).2
      = (descs.filter (fun d => !decide (d.source ∈ specEdgeTable decls descs ∧
          d.target ∈ specEdgeTable decls descs))).map
          (fun d => Diagnostic.unresolvedEdge d.source d.target) ∧
    (specImportEdges decls descs).1.length
      + (specImportEdges decls descs).2.length = descs.length ∧
    (∀ d, d ∈ descs → d.source ∈ specEdgeTable decls descs) := by
  unfold specImportEdges
  have h := specResolveEdges_spec (specEdgeTable decls descs) descs
  refine ⟨h.1, h.2, ?_, ?_⟩
  · rw [h.1, h.2, List.length_map]
    exact filter_length_partition _ descs
  · intro d hd
    unfold specEdgeTable
    exact List.mem_append_right _ (List.mem_map_of_mem _ hd)

/-- Witness for C6: the dangling edge `A --> Z` with `Z` never declared
yields zero realized edges, one diagnostic, and `A` in the table. -/
theorem c6_dangling_edges_dropped_witness :
    (specImportEdges [] [⟨"A", "Z", EdgeStyle.solid⟩]).1 = [] ∧
    (specImportEdges [] [⟨"A", "Z", EdgeStyle.solid⟩]).2.length = 1 ∧
    "A" ∈ specEdgeTable [] [⟨"A", "Z", EdgeStyle.solid⟩] := by
  have h := c6_dangling_edges_dropped [] [⟨"A", "Z", EdgeStyle.solid⟩]
  refine ⟨?_, ?_, h.2.2.2 ⟨"A", "Z", EdgeStyle.solid⟩ (by decide)⟩
  · rw [h.1]
    decide
  · rw [h.2.1]
    decide

lemma digit_toNat {d : Nat} (h : d < 10) : (digitChar d).toNat = 48 + d := by
  interval_cases d <;> decide

lemma digitsVal_append_one (xs : List Char) (c : Char) :
    digitsVal (xs ++ [c]) = 10 * digitsVal xs + (c.toNat - 48) := by
  simp [digitsVal, List.foldl_append]
  omega

lemma natStrAux_val : ∀ fuel n, n < fuel → digitsVal (natStrAux fuel n) = n := by
  intro fuel
  induction fuel with
  | zero => intro n h; omega
  | succ f ih =>
    intro n h
    unfold natStrAux
    by_cases h10 : n < 10
    · simp only [h10, if_true]
      simp [digitsVal, digit_toNat h10]
    · simp only [h10, if_false]
      have hdiv : n / 10 < n := Nat.div_lt_self (by omega) (by omega)
      have hmod : n % 10 < 10 := Nat.mod_lt _ (by omega)
      rw [digitsVal_append_one, ih (n / 10) (by omega), digit_toNat hmod]
      omega

lemma natStr_inj {m n : Nat} (h : natStr m = natStr n) : m = n := by
  unfold natStr at h
  have hd : natStrAux (m + 1) m = natStrAux (n + 1) n := by
    have := congrArg String.data h
    simpa using this
  have h1 := natStrAux_val (m + 1) m (by omega)
  have h2 := natStrAux_val (n + 1) n (by omega)
  rw [hd] at h1
  omega

lemma candidate_inj {base : String} {i j : Nat}
    (h : candidate base i = candidate base j) : i = j := by
  unfold candidate at h
  have hd := congrArg String.data h
  simp only [String.data_append] at hd
  have h2 : (natStr i).data = (natStr j).data :=
    List.append_cancel_left hd
  exact natStr_inj (String.ext h2)

lemma exists_fresh_candidate (used : List String) (base : String) (k : Nat) :
    ∃ j, k ≤ j ∧ j ≤ k + used.length ∧ candidate base j ∉ used := by
  by_contra hc
  push_neg at hc
  have hsub : ∀ i ∈ List.range (used.length + 1),
      candidate base (k + i) ∈ used := by
    intro i hi
    have := List.mem_range.mp hi
    exact hc (k + i) (by omega) (by omega)
  have hinj : Function.Injective (fun i => candidate base (k + i)) := by
    intro a b hab
    have := candidate_inj hab
    omega
  have hnd : ((List.range (used.length + 1)).map
      (fun i => candidate base (k + i))).Nodup :=
    (List.nodup_range _).map hinj
  have hlen : ((List.range (used.length + 1)).map
      (fun i => candidate base (k + i))).length = used.length + 1 := by
    simp
  have hsub2 : ((List.range (used.length + 1)).map
      (fun i => candidate base (k + i))).toFinset ⊆ used.toFinset := by
    intro x hx
    rw [List.mem_toFinset] at hx ⊢
    obtain ⟨i, hi, rfl⟩ := List.mem_map.mp hx
    exact hsub i hi
  have hcard1 := List.toFinset_card_of_nodup hnd
  have hcard2 := Finset.card_le_card hsub2
  have hcard3 := List.toFinset_card_le (l := used)
  omega

lemma freshAux_not_mem (used : List String) (base : String) :
    ∀ fuel k, (∃ j, k ≤ j ∧ j ≤ k + fuel ∧ candidate base j ∉ used) →
      freshAux used base fuel k ∉ used := by
  intro fuel
  induction fuel with
  | zero =>
    intro k h
    obtain ⟨j, h1, h2, h3⟩ := h
    have : j = k := by omega
    subst this
    simpa [freshAux] using h3
  | succ f ih =>
    intro k h
    unfold freshAux
    by_cases hk : candidate base k ∈ used
    · simp only [hk, if_true]
      refine ih (k + 1) ?_
      obtain ⟨j, h1, h2, h3⟩ := h
      have hjk : j ≠ k := by
        intro e
        subst e
        exact h3 hk
      exact ⟨j, by omega, by omega, h3⟩
    · simpa [hk]

lemma fresh_not_mem (used : List String) (base : String) :
    fresh used base ∉ used := by
  unfold fresh
  by_cases hb : base ∈ used
  · simp only [hb, if_true]
    refine freshAux_not_mem used base used.length 2 ?_
    obtain ⟨j, h1, h2, h3⟩ := exists_fresh_candidate used base 2
    exact ⟨j, h1, h2, h3⟩
  · simpa [hb]

lemma exportIdsAux_nodup :
    ∀ (nodes : List (String × String)) (used : List String),
      (∀ x ∈ exportIdsAux used nodes, x ∉ used) ∧
      (exportIdsAux used nodes).Nodup := by
  intro nodes
  induction nodes with
  | nil => intro used; simp [exportIdsAux]
  | cons nu rest ih =>
    intro used
    obtain ⟨t, u⟩ := nu
    have hid : fresh used (makeBaseId t u) ∉ used := fresh_not_mem _ _
    obtain ⟨ih1, ih2⟩ := ih (fresh used (makeBaseId t u) :: used)
    constructor
    · intro x hx
      rcases List.mem_cons.mp (by simpa [exportIdsAux] using hx) with h1 | h1
      · subst h1; exact hid
      · have := ih1 x h1
        intro hxu
        exact this (List.mem_cons_of_mem _ hxu)
    · show (exportIdsAux used ((t, u) :: rest)).Nodup
      unfold exportIdsAux
      dsimp only
      refine List.Nodup.cons ?_ ih2
      intro hmem
      have := ih1 _ hmem
      exact this (List.mem_cons_self _ _)

/-- C9: synthesized identifiers are collision-free within one export pass:
the whole id list of any pass is duplicate-free; two nodes with identical
label `"A"` get `A` and `A_2` (deterministic numeric suffix); an empty label
synthesizes `node_<uuid-prefix>`; a digit-leading label gets an underscore
marker. -/
theorem c9_export_ids_collision_free :
    (∀ nodes, (exportIds nodes).Nodup) ∧
    exportIds [("A", "u1"), ("A", "u2")] = ["A", "A_2"] ∧
    exportIds [("", "12345678-abcd")] = ["node_12345678"] ∧
    exportIds [("9x", "u")] = ["_9x"] :=
  ⟨fun nodes => (exportIdsAux_nodup nodes []).2, by decide, by decide, by decide⟩

lemma classifyLines_error :
    ∀ lines, (∃ l ∈ lines, exceptIsOk (classifyLine l) = false) →
      exceptIsOk (classifyLines lines) = false := by
  intro lines
  induction lines with
  | nil => intro h; simp at h
  | cons a rest ih =>
    intro h
    unfold classifyLines
    cases ha : classifyLine a with
    | error e => rfl
    | ok ev =>
      rcases h with ⟨l, hl, hbad⟩
      rcases List.mem_cons.mp hl with h1 | h1
      · subst h1
        rw [ha] at hbad
        simp [exceptIsOk] at hbad
      · have := ih ⟨l, h1, hbad⟩
        cases hr : classifyLines rest with
        | error e2 => rfl
        | ok evs =>
          rw [hr] at this
          simp [exceptIsOk] at this

/-- C5 (amended): an unparseable node token does not produce a diagnostic
and continue — it throws, aborting the entire import pass: whenever any
normalized line fails classification, the whole import returns the error. -/
theorem c5_bad_token_aborts_pass (text : String)
    (h : ∃ l ∈ normalizeLines text, exceptIsOk (classifyLine l) = false) :
    exceptIsOk (importMermaid text) = false := by
  unfold importMermaid
  have := classifyLines_error (normalizeLines text) h
  cases hr : classifyLines (normalizeLines text) with
  | error e => rfl
  | ok evs =>
    rw [hr] at this
    simp [exceptIsOk] at this

/-- Witness for C5 (amended) on the concrete input with the unparseable
token `[bad]`. -/
theorem c5_bad_token_aborts_pass_witness :
    exceptIsOk (importMermaid "graph TD\n[bad]\nA[one]") = false :=
  c5_bad_token_aborts_pass "graph TD\n[bad]\nA[one]" (by decide)

/-- C5, counterexample: on the input `graph TD`, `[bad]`, `A[one]` the pass
throws (`Except.error`, the uncaught `throw new Error` of StageNodeAdder
line 580) instead of recording a diagnostic and creating the node `A` from
the following line. -/
theorem c5_throws_instead_of_diagnostic :
    importMermaid "graph TD\n[bad]\nA[one]"
      = Except.error "无法解析节点标识: [bad]" ∧
    exceptIsOk (importMermaid "graph TD\n[bad]\nA[one]") = false := by
  constructor
  · rfl
  · decide

lemma build_stack_balance :
    ∀ (events : List LineEvent) (st : BuildState),
      validFromB st.stack.length events = true →
      (events.foldl applyEvent st).stack.length + closesCount events
        = st.stack.length + opensCount events := by
  intro events
  induction events with
  | nil => intro st _; simp [opensCount, closesCount]
  | cons e rest ih =>
    intro st hv
    rw [List.foldl_cons]
    cases e with
    | direction =>
      have hv2 : validFromB st.stack.length rest = true := by
        simpa [validFromB] using hv
      have := ih st hv2
      simpa [opensCount, closesCount, List.countP_cons, applyEvent] using this
    | openC name =>
      have hv2 : validFromB (st.stack.length + 1) rest = true := by
        simpa [validFromB] using hv
      have hst : (applyEvent st (.openC name)).stack.length
          = st.stack.length + 1 := by
        simp [applyEvent]
      have := ih (applyEvent st (.openC name)) (by rw [hst]; exact hv2)
      rw [hst] at this
      simp [opensCount, closesCount, List.countP_cons] at this ⊢
      omega
    | close =>
      have hv2 : 0 < st.stack.length ∧
          validFromB (st.stack.length - 1) rest = true := by
        have := hv
        unfold validFromB at this
        simpa using this
      obtain ⟨hpos, hv3⟩ := hv2
      cases hstk : st.stack with
      | nil => rw [hstk] at hpos; simp at hpos
      | cons a tail =>
        have hst : (applyEvent st .close).stack.length
            = st.stack.length - 1 := by
          simp [applyEvent, hstk]
        have := ih (applyEvent st .close) (by rw [hst]; exact hv3)
        rw [hst] at this
        have hlen : st.stack.length = tail.length + 1 := by
          rw [hstk]
          simp
        simp [opensCount, closesCount, List.countP_cons] at this ⊢
        omega
    | edge d =>
      have hv2 : validFromB st.stack.length rest = true := by
        simpa [validFromB] using hv
      have hst : (applyEvent st (.edge d)).stack.length = st.stack.length := by
        simp [applyEvent]
      have := ih (applyEvent st (.edge d)) (by rw [hst]; exact hv2)
      rw [hst] at this
      simpa [opensCount, closesCount, List.countP_cons] using this
    | node t =>
      have hv2 : validFromB st.stack.length rest = true := by
        simpa [validFromB] using hv
      have hst : (applyEvent st (.node t)).stack.length = st.stack.length := by
        simp [applyEvent]
      have := ih (applyEvent st (.node t)) (by rw [hst]; exact hv2)
      rw [hst] at this
      simpa [opensCount, closesCount, List.countP_cons] using this

lemma build_no_unterminated :
    ∀ (events : List LineEvent) (st : BuildState),
      countUnterminated ((events.foldl applyEvent st).diags)
        = countUnterminated st.diags := by
  intro events
  induction events with
  | nil => intro st; rfl
  | cons e rest ih =>
    intro st
    rw [List.foldl_cons, ih (applyEvent st e)]
    cases e with
    | direction => rfl
    | openC name => rfl
    | close =>
      cases hstk : st.stack with
      | nil =>
        simp [applyEvent, hstk, countUnterminated, List.countP_append]
      | cons a tail => simp [applyEvent, hstk]
    | edge d => rfl
    | node t => rfl

lemma upsert_mem_self :
    ∀ (l : List NodeToken) (t : NodeToken), ∃ u ∈ upsert l t, u.id = t.id := by
  intro l t
  induction l with
  | nil => exact ⟨t, by simp [upsert]⟩
  | cons a rest ih =>
    by_cases ha : a.id = t.id
    · refine ⟨{ a with label := t.label, shape := t.shape }, ?_, ha⟩
      simp [upsert, ha]
    · obtain ⟨u, hu, hid⟩ := ih
      exact ⟨u, by simp [upsert, ha, hu], hid⟩

lemma upsert_mem_mono :
    ∀ (l : List NodeToken) (t : NodeToken) (x : String),
      (∃ u ∈ l, u.id = x) → ∃ u ∈ upsert l t, u.id = x := by
  intro l t
  induction l with
  | nil => intro x h; simp at h
  | cons a rest ih =>
    intro x h
    obtain ⟨u, hu, hid⟩ := h
    by_cases ha : a.id = t.id
    · rcases List.mem_cons.mp hu with h1 | h1
      · subst h1
        exact ⟨{ u with label := t.label, shape := t.shape },
          by simp [upsert, ha], hid⟩
      · exact ⟨u, by simp [upsert, ha, h1], hid⟩
    · rcases List.mem_cons.mp hu with h1 | h1
      · subst h1
        exact ⟨u, by simp [upsert, ha], hid⟩
      · obtain ⟨v, hv, hvid⟩ := ih x ⟨u, h1, hid⟩
        exact ⟨v, by simp [upsert, ha, hv], hvid⟩

lemma build_entities_mono :
    ∀ (events : List LineEvent) (st : BuildState) (x : String),
      (∃ u ∈ st.entities, u.id = x) →
      ∃ u ∈ (events.foldl applyEvent st).entities, u.id = x := by
  intro events
  induction events with
  | nil => intro st x h; exact h
  | cons e rest ih =>
    intro st x h
    rw [List.foldl_cons]
    refine ih (applyEvent st e) x ?_
    cases e with
    | direction => exact h
    | openC name => exact h
    | close =>
      cases hstk : st.stack with
      | nil => simpa [applyEvent, hstk] using h
      | cons a tail => simpa [applyEvent, hstk] using h
    | edge d => exact h
    | node t => exact upsert_mem_mono st.entities t x h

lemma build_entities_has :
    ∀ (events : List LineEvent) (st : BuildState) (t : NodeToken),
      LineEvent.node t ∈ events →
      ∃ u ∈ (events.foldl applyEvent st).entities, u.id = t.id := by
  intro events
  induction events with
  | nil => intro st t h; simp at h
  | cons e rest ih =>
    intro st t h
    rcases List.mem_cons.mp h with h1 | h1
    · subst h1
      rw [List.foldl_cons]
      refine build_entities_mono rest (applyEvent st (.node t)) t.id ?_
      simpa [applyEvent] using upsert_mem_self st.entities t
    · rw [List.foldl_cons]
      exact ih (applyEvent st e) t h1

lemma build_sections_mono :
    ∀ (events : List LineEvent) (st : BuildState) (x : String),
      x ∈ st.sections →
      x ∈ (events.foldl applyEvent st).sections := by
  intro events
  induction events with
  | nil => intro st x h; exact h
  | cons e rest ih =>
    intro st x h
    rw [List.foldl_cons]
    refine ih (applyEvent st e) x ?_
    cases e with
    | direction => exact h
    | openC name =>
      simp only [applyEvent]
      simp [h]
    | close =>
      cases hstk : st.stack with
      | nil => simpa [applyEvent, hstk] using h
      | cons a tail => simpa [applyEvent, hstk] using h
    | edge d => exact h
    | node t => exact h

lemma build_sections_has :
    ∀ (events : List LineEvent) (st : BuildState) (name : String),
      LineEvent.openC name ∈ events →
      name ∈ (events.foldl applyEvent st).sections := by
  intro events
  induction events with
  | nil => intro st name h; simp at h
  | cons e rest ih =>
    intro st name h
    rcases List.mem_cons.mp h with h1 | h1
    · subst h1
      rw [List.foldl_cons]
      refine build_sections_mono rest (applyEvent st (.openC name)) name ?_
      simp [applyEvent]
    · rw [List.foldl_cons]
      exact ih (applyEvent st e) name h1

/-- C7: under valid interleaving, `k` container-opens and `k` closes leave
the Container Stack empty at end of pass; `k` opens and `k-1` closes
produce, after the auto-closing finish, exactly one
unterminated-container diagnostic and an empty stack; and in both cases
every declared node and every opened container is still created. -/
theorem c7_container_balance (events : List LineEvent)
    (h : validFromB 0 events = true) :
    (opensCount events = closesCount events →
      (buildEvents events).stack = []) ∧
    (opensCount events = closesCount events + 1 →
      countUnterminated ((finishPass (buildEvents events)).diags) = 1 ∧
      (finishPass (buildEvents events)).stack = []) ∧
    (∀ t, LineEvent.node t ∈ events →
      ∃ u ∈ (buildEvents events).entities, u.id = t.id) ∧
    (∀ name, LineEvent.openC name ∈ events →
      name ∈ (buildEvents events).sections) := by
  have hbal0 := build_stack_balance events initState h
  have hbal : (List.foldl applyEvent initState events).stack.length
      + closesCount events = 0 + opensCount events := hbal0
  refine ⟨?_, ?_, ?_, ?_⟩
  · intro heq
    have hlen : (buildEvents events).stack.length = 0 := by
      unfold buildEvents
      omega
    exact List.eq_nil_of_length_eq_zero hlen
  · intro heq
    have hlen : (buildEvents events).stack.length = 1 := by
      unfold buildEvents
      omega
    refine ⟨?_, rfl⟩
    unfold finishPass countUnterminated
    dsimp only
    rw [List.countP_append]
    have h1 : countUnterminated (buildEvents events).diags = 0 := by
      unfold buildEvents
      rw [build_no_unterminated events initState]
      rfl
    unfold countUnterminated at h1
    rw [h1, List.countP_map]
    have h2 : ∀ s ∈ (buildEvents events).stack,
        ((fun d => match d with
            | Diagnostic.unterminatedContainer _ => true
            | _ => false) ∘ (fun s => Diagnostic.unterminatedContainer s)) s
          = true := by
      intro s _
      rfl
    rw [List.countP_eq_length.mpr h2, hlen]
  · intro t ht
    exact build_entities_has events initState t ht
  · intro name hn
    exact build_sections_has events initState name hn

/-- Witness for C7: one open (`subgraph S`), one node, no close — the
finished pass reports exactly one unterminated-container diagnostic. -/
theorem c7_container_balance_witness :
    countUnterminated ((finishPass (buildEvents
      [LineEvent.openC "S", LineEvent.node ⟨"A", "A", ShapeKind.rectangle⟩]
      )).diags) = 1 :=
  ((c7_container_balance
    [LineEvent.openC "S", LineEvent.node ⟨"A", "A", ShapeKind.rectangle⟩]
    (by decide)).2.1 (by decide)).1
